import Mathlib

/-
Verification of the aiosolr client library (src/aiosolr.py) against its
natural-language specification.

The Python code is shallowly embedded:
 - JSON payloads (the result of json.loads) are modelled by the inductive
   type JValue; Python dicts are ordered association lists with unique keys.
 - Python str is modelled by List Char where only Unicode scalar values
   occur, and by List Nat (code points) for the UTF-16 truncation routine,
   since Python strings may carry lone surrogate code points which Lean's
   Char cannot represent.
 - Code that can raise an exception which the Python code catches is
   modelled with Option: none stands for "a Python exception was raised".
 - Network I/O is modelled by an observation function handed to the
   polling loop: the i-th observation is what the i-th GET + json.loads
   produced (or that it raised).
-/

set_option autoImplicit false

namespace Aiosolr

/-- A parsed JSON document, the result of json.loads in the Python code.
Objects are ordered field lists (Python dicts preserve insertion order);
keys are assumed unique as json.loads guarantees for its output. -/
inductive JValue where
  | null
  | bool (b : Bool)
  | num (n : Int)
  | str (s : String)
  | arr (xs : List JValue)
  | obj (fields : List (String × JValue))

/-- Python truthiness bool(v) of a JSON value: None, False, 0, empty string,
empty list and empty dict are falsy, everything else truthy. -/
def jTruthy : JValue → Bool
  | .null => false
  | .bool b => b
  | .num n => n != 0
  | .str s => s != ""
  | .arr xs => !xs.isEmpty
  | .obj fs => !fs.isEmpty

/-- Python v == "literal" for a JSON value v and a string literal: true
exactly when v is that string (a Python str compares unequal to any
non-str JSON value). -/
def jStrEq (v : JValue) (s : String) : Bool :=
  match v with
  | .str t => t == s
  | _ => false

mutual

/-- Structural equality on JSON values, modelling Python == between
deserialized JSON documents. (Python compares dicts ignoring insertion
order; this model compares the field sequences, which coincides for the
key-order-stable payloads the client handles.) -/
def jEq : JValue → JValue → Bool
  | .null, .null => true
  | .bool x, .bool y => x == y
  | .num x, .num y => x == y
  | .str x, .str y => x == y
  | .arr xs, .arr ys => jEqList xs ys
  | .obj fs, .obj gs => jEqFields fs gs
  | _, _ => false

/-- Elementwise equality of JSON arrays. -/
def jEqList : List JValue → List JValue → Bool
  | [], [] => true
  | x :: xs, y :: ys => jEq x y && jEqList xs ys
  | _, _ => false

/-- Fieldwise equality of JSON objects. -/
def jEqFields : List (String × JValue) → List (String × JValue) → Bool
  | [], [] => true
  | (k, v) :: fs, (k2, v2) :: gs => k == k2 && jEq v v2 && jEqFields fs gs
  | _, _ => false

end

/-- Whether the pattern occurs at the head of the list. -/
def headMatches : List Char → List Char → Bool
  | [], _ => true
  | _ :: _, [] => false
  | p :: ps, c :: cs => p == c && headMatches ps cs

/-- Python substring test pat in s, on character lists. -/
def containsSub (pat : List Char) : List Char → Bool
  | [] => pat.isEmpty
  | c :: cs => headMatches pat (c :: cs) || containsSub pat cs

/-- Python data.get(key, default) on a dict modelled as an assoc list:
the first field with the given key, or the default. Only called on obj
values in the embedding (matching call sites where data is a dict). -/
def jGetD (v : JValue) (key : String) (dflt : JValue) : JValue :=
  match v with
  | .obj fs =>
    match List.lookup key fs with
    | some w => w
    | none => dflt
  | _ => dflt

/-- Python v.get(key, default): raises AttributeError (modelled none) when
v is not a dict. -/
def jGetAttr (v : JValue) (key : String) (dflt : JValue) : Option JValue :=
  match v with
  | .obj _ => some (jGetD v key dflt)
  | _ => none

/-- Python v[key] with a string key: a dict lookup that raises KeyError on
a missing key, and TypeError when v is not a dict (both modelled none). -/
def jItem? (v : JValue) (key : String) : Option JValue :=
  match v with
  | .obj fs => List.lookup key fs
  | _ => none

/-- Python "key" in v: key membership for a dict, substring test for a str,
element membership for a list, TypeError (none) otherwise. -/
def jHasKey? (v : JValue) (key : String) : Option Bool :=
  match v with
  | .obj fs => some (fs.any (fun p => p.1 == key))
  | .str s => some (containsSub key.data s.data)
  | .arr xs => some (xs.any (fun x => jStrEq x key))
  | _ => none

/-- Python iteration `for x in v`: the elements of a list, the keys of a
dict, the one-character strings of a str; TypeError (none) otherwise. -/
def jIter? (v : JValue) : Option (List JValue) :=
  match v with
  | .arr xs => some xs
  | .obj fs => some (fs.map (fun p => JValue.str p.1))
  | .str s => some (s.data.map (fun c => JValue.str (String.mk [c])))
  | _ => none

/-- The normalized Response object, fields in the order __init__ assigns
them (src/aiosolr.py lines 33-69). -/
structure Response where
  data : JValue
  doc : JValue
  docs : JValue
  more_like_this : JValue
  status : Nat
  spelling_suggestions : List JValue

/-- One step of the spellcheck suggestion de-duplication: append each item
not already present (Python `if sugg not in self.spelling_suggestions`). -/
def dedupAppend (acc : List JValue) (items : List JValue) : List JValue :=
  items.foldl (fun a s => if a.any (fun x => jEq x s) then a else a ++ [s]) acc

/-- The loop `for solr_suggs in spellcheck.get("suggestions", [])` of
Response.__init__: non-dict entries and dicts without a "suggestion" key
are skipped; iterating a non-iterable "suggestion" value raises (none). -/
def addSuggs (acc : List JValue) : List JValue → Option (List JValue)
  | [] => some acc
  | it :: rest =>
    match it with
    | .obj fs =>
      if fs.any (fun p => p.1 == "suggestion") then
        match jIter? (jGetD (.obj fs) "suggestion" .null) with
        | none => none
        | some ss => addSuggs (dedupAppend acc ss) rest
      else addSuggs acc rest
    | _ => addSuggs acc rest

/-- Response.__init__(data, status) (src/aiosolr.py lines 36-69): builds
the normalized response. Returns none when the Python constructor would
raise (e.g. a truthy non-dict "response" value, a truthy non-dict
"moreLikeThis" value, a non-dict "spellcheck" value, or a non-iterable
"suggestion" entry). -/
def responseInit (data : JValue) (status : Nat) : Option Response :=
  match data with
  | .obj fs =>
    let doc := jGetD (.obj fs) "doc" (.obj [])
    let response := jGetD (.obj fs) "response" (.obj [])
    match (if jTruthy response then jGetAttr response "docs" (.arr []) else some (.arr [])) with
    | none => none
    | some docs =>
      let mlt_data := jGetD (.obj fs) "moreLikeThis" (.obj [])
      match (if jTruthy mlt_data then
               (match mlt_data with
                | .obj ((_, v) :: _) => jGetAttr v "docs" (.arr [])
                | _ => none)
             else some (.arr [])) with
      | none => none
      | some more_like_this =>
        let spellcheck := jGetD (.obj fs) "spellcheck" (.obj [])
        match jHasKey? spellcheck "collations" with
        | none => none
        | some hasColl =>
          match (if hasColl then
                   (match jItem? spellcheck "collations" with
                    | some (.arr (_ :: c1 :: _)) => some [c1]
                    | some (.arr _) => some []
                    | some _ => some []
                    | none => none)
                 else some []) with
          | none => none
          | some collPart =>
            match jGetAttr spellcheck "suggestions" (.arr []) with
            | none => none
            | some suggsVal =>
              match jIter? suggsVal with
              | none => none
              | some items =>
                match addSuggs collPart items with
                | none => none
                | some spelling =>
                  some { data := data, doc := doc, docs := docs,
                         more_like_this := more_like_this, status := status,
                         spelling_suggestions := spelling }
  | _ =>
    some { data := data, doc := .obj [], docs := .arr [],
           more_like_this := .arr [], status := status,
           spelling_suggestions := [] }

/-- Whether a JSON value is a dict (Python isinstance(data, dict)). -/
def isDict : JValue → Bool
  | .obj _ => true
  | _ => false

/-- Values a SolrError message can hold at the error-extraction call sites:
the decoded error msg field, the whole deserialized Response object
(the default argument of .get("msg", error)), or the raw body text. -/
inductive ErrValue where
  | json (v : JValue)
  | response (r : Response)
  | raw (body : String)

/-- SolrError (src/aiosolr.py lines 21-30): __init__(message, *args,
trace=None) stores the message and the trace KEYWORD argument; extra
positional arguments land in args. -/
structure SolrError where
  message : ErrValue
  args : List (Option JValue)
  trace : Option JValue

/-- The expression raise SolrError(msg, trace) as written at the error
extraction sites: the trace value is passed POSITIONALLY, so it becomes
args[1] of the exception, and the trace keyword keeps its default None. -/
def raiseSolrError2 (msg : ErrValue) (traceVal : Option JValue) : SolrError :=
  { message := msg, args := [traceVal], trace := none }

/-- The non-200 branch of Client._get_check_ok_deserialize (src/aiosolr.py
lines 166-176). parsed is the outcome of json.loads on the response body
(none when decoding raised). Any exception inside the try block - decode
failure, a raising Response constructor, or .get on a non-dict - falls
back to msg = raw body text with trace still None. -/
def extractError (status : Nat) (body : String) (parsed : Option JValue) : SolrError :=
  match parsed with
  | none => raiseSolrError2 (.raw body) none
  | some data =>
    match responseInit data status with
    | none => raiseSolrError2 (.raw body) none
    | some err =>
      match data with
      | .obj _ =>
        let inner := jGetD data "error" (.obj [])
        match inner with
        | .obj innerFs =>
          let msg : ErrValue :=
            match List.lookup "msg" innerFs with
            | some v => .json v
            | none => .response err
          raiseSolrError2 msg (List.lookup "trace" innerFs)
        | _ => raiseSolrError2 (.raw body) none
      | _ => raiseSolrError2 (.raw body) none

/-- What one polling iteration of check_dataimport_status observed from
the network: fail is any exception out of _get or json.loads; parsed
carries the HTTP status and decoded body handed to Response. -/
inductive PollObs where
  | fail
  | parsed (httpStatus : Nat) (data : JValue)

/-- The local variables of check_dataimport_status's while loop, plus a
sleep counter and a flag recording that the break statement ran. -/
structure LoopVars where
  status : Option JValue
  response_body : Option Response
  retries : Nat
  sleeps : Nat
  broke : Bool

/-- One try block of the polling loop (src/aiosolr.py lines 298-307): on
any exception the state is unchanged except that response_body keeps a
successfully constructed Response; when status == "idle" and the
statusMessages key exists, status is captured and the loop breaks. -/
def pollIter (st : LoopVars) (o : PollObs) : LoopVars :=
  match o with
  | .fail => st
  | .parsed httpStatus data =>
    match responseInit data httpStatus with
    | none => st
    | some rb =>
      let st1 := { st with response_body := some rb }
      match jItem? data "status" with
      | none => st1
      | some v =>
        if jStrEq v "idle" then
          match jItem? data "statusMessages" with
          | none => st1
          | some m => { st1 with status := some m, broke := true }
        else st1

/-- The while loop of check_dataimport_status: while status is False and
retries < max_retries, run one iteration; unless it broke, increment
retries and sleep (the sleep is unconditional, src/aiosolr.py lines
309-310). The fuel argument is max_retries minus the iterations done. -/
def pollLoop (obs : Nat → PollObs) : Nat → LoopVars → LoopVars
  | 0, st => st
  | fuel + 1, st =>
    let st2 := pollIter st (obs st.retries)
    if st2.broke then st2
    else pollLoop obs fuel
      { st2 with retries := st2.retries + 1, sleeps := st2.sleeps + 1 }

/-- Python status is not False after the loop: the sentinel False (never
assigned, modelled none) and a captured statusMessages payload that is
itself the JSON literal false both fail the test. -/
def statusIsNotFalse : Option JValue → Bool
  | none => false
  | some (.bool false) => false
  | some _ => true

/-- The format string of the exhaustion message (src/aiosolr.py lines
320-322); the %s placeholders are never interpolated - the tuple is
passed as-is to SolrError. -/
def dataimportMsgFmt : String :=
  "Unable to verify dataimport success on %s after %s seconds and %s retries and status message %s!"

/-- The tuple (fmt, collection, sleep_interval * retries, retries, status)
that becomes the SolrError message on failure. lastStatus none models the
Python False sentinel. -/
structure DataimportMsg where
  fmt : String
  collection : String
  elapsed : Nat
  retries : Nat
  lastStatus : Option JValue

/-- The outcome of one call of check_dataimport_status: raised is the
message tuple of the SolrError when the call raises; returned is the
function's return value when it does not (the Python function body has no
return statement, so it is always None); retries and sleeps count loop
iterations and asyncio.sleep calls. -/
structure PollResult where
  raised : Option DataimportMsg
  returned : Option JValue
  retries : Nat
  sleeps : Nat

/-- Client.check_dataimport_status (src/aiosolr.py lines 285-329) for a
given collection, max_retries, sleep_interval and observation sequence:
run the polling loop from the initial state, then either log and return
None (success condition: response_body set with HTTP status 200, status
not False, retries < max_retries) or raise SolrError with the
uninterpolated message tuple. -/
def check_dataimport_status (collection : String) (max_retries sleep_interval : Nat)
    (obs : Nat → PollObs) : PollResult :=
  let st := pollLoop obs max_retries
    { status := none, response_body := none, retries := 0, sleeps := 0, broke := false }
  let ok := (match st.response_body with
             | some rb => rb.status == 200
             | none => false)
            && statusIsNotFalse st.status
            && decide (st.retries < max_retries)
  if ok then
    { raised := none, returned := none, retries := st.retries, sleeps := st.sleeps }
  else
    { raised := some { fmt := dataimportMsgFmt, collection := collection,
                       elapsed := sleep_interval * st.retries, retries := st.retries,
                       lastStatus := st.status },
      returned := none, retries := st.retries, sleeps := st.sleeps }

/-- The statusMessages value an iteration would capture while breaking out
of the loop, or none when the iteration cannot break (failed request,
raising constructor, missing or non-idle status, missing statusMessages). -/
def obsBreakResult (o : PollObs) : Option JValue :=
  match o with
  | .fail => none
  | .parsed httpStatus data =>
    match responseInit data httpStatus with
    | none => none
    | some _ =>
      match jItem? data "status" with
      | none => none
      | some v =>
        if jStrEq v "idle" then jItem? data "statusMessages" else none

/-- True when none of the first k observations can break the loop. -/
def noBreakBefore (obs : Nat → PollObs) (k : Nat) : Bool :=
  (List.range k).all (fun i => (obsBreakResult (obs i)).isNone)

/-- The code points Python str.isspace() recognizes, which str.strip()
removes from the ends of a string. -/
def pyIsSpace (n : Nat) : Bool :=
  (9 ≤ n && n ≤ 13) || (28 ≤ n && n ≤ 31) || n == 32 || n == 133 || n == 160 ||
  n == 5760 || (8192 ≤ n && n ≤ 8202) || n == 8232 || n == 8233 || n == 8239 ||
  n == 8287 || n == 12288

/-- Python str.lstrip() on a code-point sequence. -/
def stripLeft : List Nat → List Nat
  | [] => []
  | a :: as => if pyIsSpace a then stripLeft as else a :: as

/-- Python str.rstrip() on a code-point sequence. -/
def stripRight : List Nat → List Nat
  | [] => []
  | a :: as =>
    match stripRight as with
    | [] => if pyIsSpace a then [] else [a]
    | bs => a :: bs

/-- Python str.strip(): whitespace removed from both ends. -/
def pyStrip (l : List Nat) : List Nat := stripRight (stripLeft l)

/-- Whether a code point is a leading (high) UTF-16 surrogate, the range
of the regex character class of src/aiosolr.py line 278. -/
def isHighSurrogate (n : Nat) : Bool := 55296 ≤ n && n ≤ 56319

/-- Whether a code-point string ends with a high surrogate. -/
def endsHigh (l : List Nat) : Bool :=
  match l.getLast? with
  | some x => isHighSurrogate x
  | none => false

/-- The substitution of the anchored pattern of high surrogates at line
278: remove the last code point when it is a high surrogate (the $ anchor
makes at most one removal). -/
def dropTrailingHighSurrogate (l : List Nat) : List Nat :=
  match l.getLast? with
  | some x => if isHighSurrogate x then l.dropLast else l
  | none => l

/-- The index of the last ASCII space in a code-point string, if any. -/
def lastSpaceIdx : List Nat → Option Nat
  | [] => none
  | a :: as =>
    match lastSpaceIdx as with
    | some i => some (i + 1)
    | none => if a == 32 then some 0 else none

/-- Python query.rsplit(" ", 1)[0]: everything before the last ASCII
space, or the whole string when it has no space. -/
def rsplitHead (l : List Nat) : List Nat :=
  match lastSpaceIdx l with
  | none => l
  | some i => l.take i

/-- Client._truncate_utf8 (src/aiosolr.py lines 262-283) on the code
points of a Python str (the bytes branch does not apply to str input):
strip, cut to the length, drop a lone trailing high surrogate, cut back
to the last space when the string was shortened and preserve_words is
set, and strip once more. -/
def truncate_utf8 (query : List Nat) (length : Nat) (preserve_words : Bool) : List Nat :=
  let q1 := pyStrip query
  let original_len := q1.length
  let q2 := q1.take length
  let q3 := dropTrailingHighSurrogate q2
  let q4 := if decide (original_len > q3.length) && preserve_words then rsplitHead q3 else q3
  pyStrip q4

/-- pyIsSpace lifted to Lean characters (for the pipeline of clean, whose
inputs in the verified claims are scalar-value strings). -/
def pyIsSpaceC (c : Char) : Bool := pyIsSpace c.toNat

/-- Whether a match of the pattern http followed by at least one
non-whitespace character starts at the head of the list. -/
def httpMatchAt : List Char → Bool
  | 'h' :: 't' :: 't' :: 'p' :: d :: _ => !pyIsSpaceC d
  | _ => false

/-- The state-machine form of re.sub applied to the pattern of http
followed by one or more non-whitespace characters, with empty replacement
(src/aiosolr.py line 345). A match is the run of non-whitespace
characters starting at the matched h (the greedy one-or-more extends to
the next whitespace), so in deleting mode the scanner discards characters
up to the next whitespace; scanning resumes there, exactly where re.sub
continues after a match. -/
def stripHttpGo : Bool → List Char → List Char
  | _, [] => []
  | true, c :: cs =>
    if pyIsSpaceC c then c :: stripHttpGo false cs else stripHttpGo true cs
  | false, c :: cs =>
    if httpMatchAt (c :: cs) then stripHttpGo true cs
    else c :: stripHttpGo false cs

/-- re.sub of the http pattern with empty replacement. -/
def stripHttp (l : List Char) : List Char := stripHttpGo false l

/-- The character class of the default remove_chars argument of clean. -/
def removedChar (c : Char) : Bool :=
  ['&', '|', '!', '(', ')', '\x7b', '\x7d', '[', ']', '^', '"', '~', '?', '\\', ';'].contains c

/-- re.sub(remove_chars, "", query) at the default remove_chars. -/
def removeSpecial (l : List Char) : List Char := l.filter (fun c => !removedChar c)

/-- query.replace("*", ""). -/
def removeStar (l : List Char) : List Char := l.filter (fun c => c != '*')

/-- query.replace("%2a", ""): a single left-to-right pass that skips past
each removed occurrence (it does not rescan text joined by a removal). -/
def removePercent2a : List Char → List Char
  | '%' :: '2' :: 'a' :: rest => removePercent2a rest
  | c :: cs => c :: removePercent2a cs
  | [] => []

/-- re.sub of the default escape_chars pair: every colon becomes a
backslash followed by a colon. -/
def escapeColons : List Char → List Char
  | [] => []
  | c :: cs => if c = ':' then '\\' :: ':' :: escapeColons cs else c :: escapeColons cs

/-- Modelled from the spec: bleach.clean(query, strip=True) is a call into
the external bleach library, whose source is not part of this repository;
section 4.2 step 5 of the spec describes it as "strip all HTML markup
from the string ... preserving plain text content". The model deletes
each segment from an opening angle bracket through the next closing one
(an unterminated tag consumes the rest) and keeps all other characters. -/
def bleachGo : Bool → List Char → List Char
  | _, [] => []
  | true, c :: cs => if c = '>' then bleachGo false cs else bleachGo true cs
  | false, c :: cs => if c = '<' then bleachGo true cs else c :: bleachGo false cs

/-- bleach.clean(query, strip=True), modelled as markup stripping. -/
def bleachClean (l : List Char) : List Char := bleachGo false l

/-- Uppercase hexadecimal digit for a value below 16. -/
def hexUpper (d : Nat) : Char := Char.ofNat (if d < 10 then 48 + d else 55 + d)

/-- The UTF-8 encoding of one code point. -/
def utf8Bytes (n : Nat) : List Nat :=
  if n < 128 then [n]
  else if n < 2048 then [192 + n / 64, 128 + n % 64]
  else if n < 65536 then [224 + n / 4096, 128 + n / 64 % 64, 128 + n % 64]
  else [240 + n / 262144, 128 + n / 4096 % 64, 128 + n / 64 % 64, 128 + n % 64]

/-- Bytes urllib.parse.quote_plus leaves unencoded: ASCII alphanumerics
and underscore, dot, hyphen, tilde. -/
def safeByte (b : Nat) : Bool :=
  (48 ≤ b && b ≤ 57) || (65 ≤ b && b ≤ 90) || (97 ≤ b && b ≤ 122) ||
  b == 95 || b == 46 || b == 45 || b == 126

/-- quote_plus on one byte: space becomes +, safe bytes pass through,
everything else is percent-encoded with uppercase hex digits. -/
def quoteByte (b : Nat) : List Char :=
  if b == 32 then ['+']
  else if safeByte b then [Char.ofNat b]
  else ['%', hexUpper (b / 16), hexUpper (b % 16)]

/-- urllib.parse.quote_plus(s, encoding="utf8") on a character list. -/
def quotePlusChars (l : List Char) : List Char :=
  ((l.map (fun c => utf8Bytes c.toNat)).flatten.map quoteByte).flatten

/-- urllib.parse.quote_plus on a string. -/
def quote_plus (s : String) : String := String.mk (quotePlusChars s.data)

/-- Client._truncate_utf8 applied inside clean, on Lean characters (valid
scalar values; the routine only removes code points, so the result maps
back to characters). -/
def charTruncate (l : List Char) (n : Nat) : List Char :=
  (truncate_utf8 (l.map Char.toNat) n true).map Char.ofNat

/-- Client.clean (src/aiosolr.py lines 331-371) with remove_chars and
escape_chars fixed at their default values (the claims under verification
use the defaults; the default escape_chars tuple is truthy, so the escape
step always runs). The steps in source order: strip http tokens unless
allow_http, remove the special-character class, remove wildcards unless
allow_wildcard, escape colons, strip markup unless allow_html_tags,
truncate when max_len is nonzero, and percent-encode when urlencode. -/
def clean (query : List Char) (allow_html_tags allow_http allow_wildcard : Bool)
    (max_len : Nat) (urlencode : Bool) : List Char :=
  let q1 := if allow_http then query else stripHttp query
  let q2 := removeSpecial q1
  let q3 := if allow_wildcard then q2 else removePercent2a (removeStar q2)
  let q4 := escapeColons q3
  let q5 := if allow_html_tags then q4 else bleachClean q4
  let q6 := if max_len != 0 then charTruncate q5 max_len else q5
  if urlencode then quotePlusChars q6 else q6

/-- clean with every keyword argument at its default. -/
def cleanDefaults (query : List Char) : List Char :=
  clean query false false false 0 false

/-- A scalar keyword-argument value of the client methods: a string, a
boolean, or an integer. -/
inductive QScalar where
  | s (v : String)
  | b (v : Bool)
  | i (v : Int)

/-- A keyword-argument value: a scalar or a list of scalars (the shapes
the encoder distinguishes; nested lists do not occur in the claims). -/
inductive QVal where
  | scalar (v : QScalar)
  | list (vs : List QScalar)

/-- Python str() of a scalar: strings unchanged, booleans title-cased,
integers in decimal. -/
def pyStr : QScalar → String
  | .s v => v
  | .b true => "True"
  | .b false => "False"
  | .i v => toString v

/-- The repeated-parameter fragment: one percent-encoded &name=value pair
per list element (src/aiosolr.py lines 201-219). -/
def repeatPart (name : String) (vs : List QScalar) : String :=
  String.join (vs.map (fun v => "&" ++ name ++ "=" ++ quote_plus (pyStr v)))

/-- Python kwargs.pop(name) on an insertion-ordered dict with unique keys:
drop the entry with that key. -/
def popKey (name : String) : List (String × QVal) → List (String × QVal)
  | [] => []
  | (k, v) :: rest => if k == name then rest else (k, v) :: popKey name rest

/-- The extraction `if name in kwargs and isinstance(kwargs.get(name),
list)` followed by pop and per-element encoding: yields the encoded
fragment and the remaining kwargs (unchanged when the key is missing or
not list-valued). -/
def extractRepeat (name : String) (kw : List (String × QVal)) :
    String × List (String × QVal) :=
  match List.lookup name kw with
  | some (QVal.list vs) => (repeatPart name vs, popKey name kw)
  | _ => ("", kw)

/-- separator.join(strings). -/
def sepJoin (sep : String) : List String → String
  | [] => ""
  | [x] => x
  | x :: xs => x ++ sep ++ sepJoin sep xs

/-- One entry of the generic loop of _kwargs_to_query_string (src
lines 221-232): remaining lists are joined with + for qf and , otherwise;
booleans render as lowercase true/false; other scalars are stringified
and percent-encoded. -/
def qvalEntry (param : String) (v : QVal) : String :=
  match v with
  | .list vs =>
    let separator := if param == "qf" then "+" else ","
    "&" ++ param ++ "=" ++ sepJoin separator (vs.map (fun x => quote_plus (pyStr x)))
  | .scalar (.b true) => "&" ++ param ++ "=true"
  | .scalar (.b false) => "&" ++ param ++ "=false"
  | .scalar x => "&" ++ param ++ "=" ++ quote_plus (pyStr x)

/-- Client._kwargs_to_query_string (src/aiosolr.py lines 193-234): extract
list-valued fq, facet.field and boost in that order, then encode the
remaining kwargs in insertion order. -/
def kwargs_to_query_string (kwargs : List (String × QVal)) : String :=
  let p1 := extractRepeat "fq" kwargs
  let p2 := extractRepeat "facet.field" p1.2
  let p3 := extractRepeat "boost" p2.2
  p1.1 ++ p2.1 ++ p3.1 ++ String.join (p3.2.map (fun kv => qvalEntry kv.1 kv.2))

/-- A truncation result r ends at a word boundary of the trimmed input
orig: it is empty, or it is the prefix of orig of its own length and
either exhausts orig or is followed in orig by whitespace (so its last
word is complete, not cut mid-word). -/
def wordBoundaryOk (orig r : List Nat) : Bool :=
  r.isEmpty ||
    (decide (orig.take r.length = r) &&
      (orig.length == r.length || pyIsSpace (orig.getD r.length 0)))

/-- Colons occur only escaped, and never double-escaped: backslash and
colon characters appear only as adjacent backslash-colon pairs. -/
def escapedColonsOnly : List Char → Bool
  | [] => true
  | c :: cs =>
    if c = '\\' then
      match cs with
      | c2 :: cs2 => if c2 = ':' then escapedColonsOnly cs2 else false
      | [] => false
    else if c = ':' then false
    else escapedColonsOnly cs

/-- escapedColonsOnly up to phase: the list may also start in the middle
of an escaped pair (at its colon). Suffixes reached while scanning an
escapedColonsOnly list satisfy this. -/
def ecPhase (l : List Char) : Bool :=
  escapedColonsOnly l ||
    (match l with
     | c :: cs => if c = ':' then escapedColonsOnly cs else false
     | [] => false)

/-- A dataimport status body with a non-idle status. -/
def busyData : JValue :=
  .obj [("status", .str "busy"), ("statusMessages", .str "working")]

/-- A dataimport status body with an idle status. -/
def idleData : JValue :=
  .obj [("status", .str "idle"), ("statusMessages", .str "done")]

/-- Observations for a run that is busy twice, then idle. -/
def obsSeq : Nat → PollObs :=
  fun i => if i < 2 then .parsed 200 busyData else .parsed 200 idleData

/-- Observations for a run that never becomes idle. -/
def obsBusy : Nat → PollObs := fun _ => .parsed 200 busyData

/-- The Response the constructor builds from idleData at HTTP 200. -/
def rbIdle : Response :=
  { data := idleData, doc := .obj [], docs := .arr [],
    more_like_this := .arr [], status := 200, spelling_suggestions := [] }

/-- A decoded Solr error envelope with msg and trace fields. -/
def solrErrorEnvelope : JValue :=
  .obj [("error", .obj [("msg", .str "boom"), ("trace", .str "java.lang.Exception")])]

/-- C10: for every payload whose parsed JSON is not a dict, the
constructed Response keeps the payload in its data field and exposes an
empty doc map, empty docs, empty more_like_this and empty
spelling_suggestions, without raising. -/
theorem response_non_dict_defaults (data : JValue) (status : Nat)
    (h : isDict data = false) :
    responseInit data status =
      some { data := data, doc := .obj [], docs := .arr [],
             more_like_this := .arr [], status := status,
             spelling_suggestions := [] } := by
  cases data <;> simp_all [isDict, responseInit]

/-- Witness for C10 at a top-level JSON array payload. -/
theorem response_non_dict_defaults_witness :
    isDict (JValue.arr [.num 1]) = false ∧
    responseInit (JValue.arr [.num 1]) 200 =
      some { data := JValue.arr [.num 1], doc := .obj [], docs := .arr [],
             more_like_this := .arr [], status := 200,
             spelling_suggestions := [] } :=
  ⟨rfl, response_non_dict_defaults (JValue.arr [.num 1]) 200 rfl⟩

/-- C2: evaluating the error extraction at a body that decodes as the full
Solr error envelope shows the raised SolrError carries the msg value as
its message, but its trace ATTRIBUTE is None: the extracted trace is
passed positionally into args instead of through the trace keyword. On a
body that fails to decode, message is the raw body text and trace is
None, as the claim states. -/
theorem extract_error_drops_trace :
    extractError 500 "raw body" (some solrErrorEnvelope) =
      { message := .json (.str "boom"),
        args := [some (.str "java.lang.Exception")], trace := none } ∧
    extractError 500 "it is not json" none =
      { message := .raw "it is not json", args := [none], trace := none } :=
  ⟨rfl, rfl⟩

/-- C7: clean("peace|smoke") with default options: the code deletes the
pipe (re.sub with empty replacement), producing "peacesmoke", not the
"peace smoke" the repository's own test test_clean.py expects. -/
theorem clean_pipe_deleted :
    cleanDefaults ("peace|smoke").data = ("peacesmoke").data ∧
    cleanDefaults ("peace|smoke").data ≠ ("peace smoke").data :=
  ⟨rfl, by decide⟩

/-- Counterexample for C8: clean with default options (allowWildcard
false) does not remove the uppercase percent-encoded wildcard: the
replace call is case-sensitive on the literal "%2a", so "%2A" survives
unchanged and occurs in the result. -/
theorem clean_keeps_uppercase_wildcard :
    cleanDefaults ("%2A").data = ("%2A").data ∧
    containsSub ("%2A").data (cleanDefaults ("%2A").data) = true :=
  ⟨rfl, rfl⟩

/-- Counterexample for C3: clean with default options is not idempotent.
On "ht|tp:foo" the removal of the pipe creates the token "http\:foo",
which the second application's http-stripping rule deletes entirely. -/
theorem clean_not_idempotent :
    cleanDefaults (cleanDefaults ("ht|tp:foo").data) ≠
      cleanDefaults ("ht|tp:foo").data := by decide

/-- Counterexample for C5: truncating "abcdef" to 3 with preserve_words
leaves "abc", a strict prefix of the single word of the input: when the
cut contains no space, rsplit keeps the whole cut string, so a partial
trailing word remains even though truncation occurred. -/
theorem truncate_leaves_partial_word :
    truncate_utf8 [97, 98, 99, 100, 101, 102] 3 true = [97, 98, 99] ∧
    wordBoundaryOk (pyStrip [97, 98, 99, 100, 101, 102])
      (truncate_utf8 [97, 98, 99, 100, 101, 102] 3 true) = false :=
  ⟨rfl, rfl⟩

/-- Counterexample for C6: on the code points of "a", a lone high
surrogate, a space and "b", truncation to 3 ends with the high surrogate:
the surrogate check runs right after the cut (whose last character is the
space), and the word-preserving cut-back then re-exposes the surrogate at
the end. -/
theorem truncate_leaves_trailing_surrogate :
    truncate_utf8 [97, 55296, 32, 98] 3 true = [97, 55296] ∧
    endsHigh (truncate_utf8 [97, 55296, 32, 98] 3 true) = true :=
  ⟨rfl, rfl⟩

/-- C6 (amended): the guarantee the surrogate substitution gives holds
only at the point it runs, immediately after the cut: a string whose last
two code points are not both high surrogates does not end with a high
surrogate once dropTrailingHighSurrogate is applied. The later whitespace
trim and word cut-back of truncate_utf8 can re-expose one. -/
theorem dropSurrogate_no_trailing_high (l : List Nat)
    (h : (endsHigh l && endsHigh l.dropLast) = false) :
    endsHigh (dropTrailingHighSurrogate l) = false := by
  unfold dropTrailingHighSurrogate
  cases hl : l.getLast? with
  | none => simp [endsHigh, hl]
  | some x =>
    cases hx : isHighSurrogate x with
    | true =>
      have h1 : endsHigh l = true := by simp [endsHigh, hl, hx]
      simp only [h1, Bool.true_and] at h
      simpa [hx] using h
    | false =>
      simp [hx, endsHigh, hl]

/-- Witness for the amended C6 at the cut of "a" followed by one high
surrogate. -/
theorem dropSurrogate_no_trailing_high_witness :
    (endsHigh [97, 55296] && endsHigh (List.dropLast [97, 55296])) = false ∧
    endsHigh (dropTrailingHighSurrogate [97, 55296]) = false :=
  ⟨rfl, dropSurrogate_no_trailing_high [97, 55296] rfl⟩

/-- Counterexample for C1: on a run that reports busy twice and then idle
with max_retries 5, the call finishes without raising after exactly 2
sleeps, but its return value is None - the function body of
check_dataimport_status has no return statement, so the statusMessages
payload ("done" here) is never returned to the caller. -/
theorem check_dataimport_status_returns_nothing :
    (check_dataimport_status "col" 5 60 obsSeq).raised = none ∧
    (check_dataimport_status "col" 5 60 obsSeq).sleeps = 2 ∧
    (check_dataimport_status "col" 5 60 obsSeq).returned = none ∧
    (none : Option JValue) ≠ some (JValue.str "done") :=
  ⟨rfl, rfl, rfl, by simp⟩

/-- Counterexample for C4: on a run that never reports idle with
max_retries 3, the call sleeps 3 times, not 2: the loop sleeps
unconditionally after every attempt, including the exhausting one. The
raised message tuple carries the boolean False sentinel (none) in its
status slot, not the last-seen status message. -/
theorem check_dataimport_status_sleeps_after_last :
    (check_dataimport_status "col" 3 60 obsBusy).sleeps = 3 ∧
    (check_dataimport_status "col" 3 60 obsBusy).sleeps ≠ 2 ∧
    (check_dataimport_status "col" 3 60 obsBusy).raised =
      some { fmt := dataimportMsgFmt, collection := "col", elapsed := 180,
             retries := 3, lastStatus := none } :=
  ⟨rfl, by decide, rfl⟩

theorem str_append_empty_right (s : String) : s ++ "" = s := by
  cases s with
  | mk l => show String.mk (l ++ []) = String.mk l; rw [List.append_nil]

/-- C9: for every list bound to a repeat-parameter name (fq, facet.field
or boost), the encoder emits one separate percent-encoded &name=value
pair per element rather than a joined value, and an empty list yields no
output for that parameter (repeatPart of the empty list is ""). -/
theorem kwargs_repeat_separate_pairs (name : String) (vs : List QScalar)
    (h : name = "fq" ∨ name = "facet.field" ∨ name = "boost") :
    kwargs_to_query_string [(name, QVal.list vs)] = repeatPart name vs := by
  rcases h with h | h | h <;> subst h <;>
    simp [kwargs_to_query_string, extractRepeat, popKey, List.lookup,
      str_append_empty_right, String.join]

/-- Witness for C9: encoding a two-element fq list yields two separate
&fq= pairs. -/
theorem kwargs_repeat_separate_pairs_witness :
    kwargs_to_query_string [("fq", QVal.list [QScalar.s "a:1", QScalar.s "b:2"])] =
      "&fq=a%3A1&fq=b%3A2" :=
  Eq.trans
    (kwargs_repeat_separate_pairs "fq" [QScalar.s "a:1", QScalar.s "b:2"] (Or.inl rfl))
    (by decide)

theorem responseInit_status (d : JValue) (s : Nat) (rb : Response)
    (h : responseInit d s = some rb) : rb.status = s := by
  cases d <;> simp only [responseInit] at h <;>
    try (injection h with h2; subst h2; rfl)
  next fs =>
    repeat' split at h
    all_goals try exact Option.noConfusion h
    all_goals (injection h with h2; subst h2; rfl)

theorem pollIter_break_none (st : LoopVars) (o : PollObs)
    (h : obsBreakResult o = none) :
    (pollIter st o).status = st.status ∧ (pollIter st o).retries = st.retries ∧
    (pollIter st o).sleeps = st.sleeps ∧ (pollIter st o).broke = st.broke := by
  cases o with
  | fail => exact ⟨rfl, rfl, rfl, rfl⟩
  | parsed hs d =>
    simp only [pollIter]
    simp only [obsBreakResult] at h
    cases hri : responseInit d hs with
    | none => simp [hri]
    | some rb =>
      simp only [hri] at h ⊢
      cases hji : jItem? d "status" with
      | none => simp [hji]
      | some v =>
        simp only [hji] at h ⊢
        cases hse : jStrEq v "idle" with
        | false => simp [hse]
        | true =>
          simp only [hse, if_true] at h ⊢
          rw [h]
          simp

theorem pollLoop_run (obs : Nat → PollObs) :
    ∀ (k fuel : Nat) (st : LoopVars), st.broke = false → k ≤ fuel →
    (∀ i, i < k → obsBreakResult (obs (st.retries + i)) = none) →
    ∃ rb, pollLoop obs fuel st =
      pollLoop obs (fuel - k)
        { status := st.status, response_body := rb,
          retries := st.retries + k, sleeps := st.sleeps + k, broke := false } := by
  intro k
  induction k with
  | zero =>
    intro fuel st hb _ _
    cases st with
    | mk s r rt sl br =>
      simp only [LoopVars.broke] at hb
      subst hb
      exact ⟨r, by simp⟩
  | succ k ih =>
    intro fuel st hb hkf hnb
    cases fuel with
    | zero => omega
    | succ f =>
      have h0 : obsBreakResult (obs st.retries) = none := by
        have := hnb 0 (Nat.succ_pos k)
        simpa using this
      obtain ⟨hsv, hrt, hsl, hbr⟩ := pollIter_break_none st (obs st.retries) h0
      have hb2 : (pollIter st (obs st.retries)).broke = false := by rw [hbr, hb]
      have hstep : pollLoop obs (f + 1) st = pollLoop obs f
          { pollIter st (obs st.retries) with
            retries := (pollIter st (obs st.retries)).retries + 1,
            sleeps := (pollIter st (obs st.retries)).sleeps + 1 } := by
        simp only [pollLoop, hb2]
        simp
      obtain ⟨rb, hrb⟩ := ih f
        { pollIter st (obs st.retries) with
          retries := (pollIter st (obs st.retries)).retries + 1,
          sleeps := (pollIter st (obs st.retries)).sleeps + 1 }
        hb2 (by omega)
        (by
          intro i hi
          have e : (pollIter st (obs st.retries)).retries + 1 + i
              = st.retries + (i + 1) := by rw [hrt]; omega
          simp only [e]
          exact hnb (i + 1) (by omega))
      refine ⟨rb, ?_⟩
      rw [hstep, hrb]
      have e1 : f - k = f + 1 - (k + 1) := by omega
      have e2 : (pollIter st (obs st.retries)).retries + 1 + k
          = st.retries + (k + 1) := by rw [hrt]; omega
      have e3 : (pollIter st (obs st.retries)).sleeps + 1 + k
          = st.sleeps + (k + 1) := by rw [hsl]; omega
      rw [e1, e2, e3, hsv]

/-- C4 (amended): when no observation among the first max_retries can
break the loop, check_dataimport_status makes exactly max_retries
attempts, sleeps after EVERY attempt including the last (max_retries
sleeps, not max_retries - 1), and raises a SolrError whose message is the
uninterpolated tuple carrying the collection name, the elapsed time
sleep_interval * max_retries, the retry count, and the boolean False
sentinel (not the last-seen status message) in the status slot. -/
theorem check_dataimport_status_exhausts (collection : String)
    (max_retries sleep_interval : Nat) (obs : Nat → PollObs)
    (h : noBreakBefore obs max_retries = true) :
    check_dataimport_status collection max_retries sleep_interval obs =
      { raised := some { fmt := dataimportMsgFmt, collection := collection,
                         elapsed := sleep_interval * max_retries,
                         retries := max_retries, lastStatus := none },
        returned := none, retries := max_retries, sleeps := max_retries } := by
  have hnb : ∀ i, i < max_retries → obsBreakResult (obs i) = none := by
    intro i hi
    have := (List.all_eq_true.mp h) i (List.mem_range.mpr hi)
    simpa [Option.isNone_iff_eq_none] using this
  obtain ⟨rb, hrb⟩ := pollLoop_run obs max_retries max_retries
    { status := none, response_body := none, retries := 0, sleeps := 0, broke := false }
    rfl le_rfl (by simpa using hnb)
  unfold check_dataimport_status
  rw [hrb]
  simp [pollLoop, statusIsNotFalse]

/-- Witness for the amended C4: a never-idle endpoint with max_retries 3
gives 3 attempts, 3 sleeps, and the tuple-message SolrError. -/
theorem check_dataimport_status_exhausts_witness :
    noBreakBefore obsBusy 3 = true ∧
    check_dataimport_status "books" 3 60 obsBusy =
      { raised := some { fmt := dataimportMsgFmt, collection := "books",
                         elapsed := 180, retries := 3, lastStatus := none },
        returned := none, retries := 3, sleeps := 3 } :=
  ⟨rfl, check_dataimport_status_exhausts "books" 3 60 obsBusy rfl⟩

/-- C1 (amended): when the first k observations cannot break the loop and
observation k (with k < max_retries) is an HTTP 200 body whose status is
"idle" with a statusMessages value that is not the JSON literal false,
the call stops after k retries and k sleeps and raises nothing - but its
return value is None (the Python function has no return statement), not
the statusMessages payload. -/
theorem check_dataimport_status_idle_stops (collection : String)
    (max_retries sleep_interval k : Nat) (obs : Nat → PollObs)
    (d m : JValue) (rb : Response)
    (hk : k < max_retries)
    (hpre : noBreakBefore obs k = true)
    (hobs : obs k = .parsed 200 d)
    (hri : responseInit d 200 = some rb)
    (hst : jItem? d "status" = some (.str "idle"))
    (hmsg : jItem? d "statusMessages" = some m)
    (hnf : statusIsNotFalse (some m) = true) :
    check_dataimport_status collection max_retries sleep_interval obs =
      { raised := none, returned := none, retries := k, sleeps := k } := by
  have hnb : ∀ i, i < k → obsBreakResult (obs i) = none := by
    intro i hi
    have := (List.all_eq_true.mp hpre) i (List.mem_range.mpr hi)
    simpa [Option.isNone_iff_eq_none] using this
  obtain ⟨rb0, hrb0⟩ := pollLoop_run obs k max_retries
    { status := none, response_body := none, retries := 0, sleeps := 0, broke := false }
    rfl (Nat.le_of_lt hk) (by simpa using hnb)
  obtain ⟨r, hr⟩ : ∃ r, max_retries - k = r + 1 :=
    ⟨max_retries - k - 1, by omega⟩
  have hidle : jStrEq (JValue.str "idle") "idle" = true := by
    simp [jStrEq]
  have hone : pollLoop obs (max_retries - k)
      { status := none, response_body := rb0, retries := 0 + k,
        sleeps := 0 + k, broke := false } =
      { status := some m, response_body := some rb, retries := 0 + k,
        sleeps := 0 + k, broke := true } := by
    rw [hr]
    simp only [pollLoop]
    have hiter : pollIter
        { status := none, response_body := rb0, retries := 0 + k,
          sleeps := 0 + k, broke := false } (obs (0 + k)) =
        { status := some m, response_body := some rb, retries := 0 + k,
          sleeps := 0 + k, broke := true } := by
      have : obs (0 + k) = .parsed 200 d := by simpa using hobs
      rw [this]
      simp only [pollIter]
      rw [hri, hst, hmsg]
      simp [hidle]
    rw [hiter]
    simp
  have hst200 : rb.status = 200 := responseInit_status d 200 rb hri
  unfold check_dataimport_status
  rw [hrb0, hone]
  simp [hst200, hnf, hk]

/-- Witness for the amended C1: busy twice then idle with max_retries 5
stops after 2 retries and 2 sleeps without raising, returning None. -/
theorem check_dataimport_status_idle_stops_witness :
    (2 < 5 ∧ noBreakBefore obsSeq 2 = true) ∧
    check_dataimport_status "books" 5 60 obsSeq =
      { raised := none, returned := none, retries := 2, sleeps := 2 } :=
  ⟨⟨by decide, rfl⟩,
    check_dataimport_status_idle_stops "books" 5 60 2 obsSeq idleData
      (JValue.str "done") rbIdle (by decide) rfl rfl rfl rfl rfl rfl⟩

theorem mem_removePercent2a (x : Char) :
    ∀ l : List Char, x ∈ removePercent2a l → x ∈ l := by
  intro l
  induction l using removePercent2a.induct with
  | case1 rest ih =>
    intro h
    simp only [removePercent2a] at h
    exact List.mem_cons_of_mem _ (List.mem_cons_of_mem _ (List.mem_cons_of_mem _ (ih h)))
  | case2 c cs hne ih =>
    intro h
    rw [show removePercent2a (c :: cs) = c :: removePercent2a cs from by
      cases c
      simp [removePercent2a]] at h
    rcases List.mem_cons.mp h with h | h
    · exact h ▸ List.mem_cons_self _ _
    · exact List.mem_cons_of_mem _ (ih h)
  | case3 => intro h; simp [removePercent2a] at h

theorem mem_escapeColons (x : Char) :
    ∀ l : List Char, x ∈ escapeColons l → x = '\\' ∨ x ∈ l := by
  intro l
  induction l with
  | nil => intro h; simp [escapeColons] at h
  | cons c cs ih =>
    intro h
    by_cases hc : c = ':'
    · subst hc
      simp only [escapeColons, if_pos rfl] at h
      rcases List.mem_cons.mp h with h | h
      · exact Or.inl h
      · rcases List.mem_cons.mp h with h | h
        · exact Or.inr (h ▸ List.mem_cons_self _ _)
        · rcases ih h with h | h
          · exact Or.inl h
          · exact Or.inr (List.mem_cons_of_mem _ h)
    · simp only [escapeColons, if_neg hc] at h
      rcases List.mem_cons.mp h with h | h
      · exact Or.inr (h ▸ List.mem_cons_self _ _)
      · rcases ih h with h | h
        · exact Or.inl h
        · exact Or.inr (List.mem_cons_of_mem _ h)

theorem mem_bleachGo (x : Char) :
    ∀ (l : List Char) (b : Bool), x ∈ bleachGo b l → x ∈ l := by
  intro l
  induction l with
  | nil => intro b h; cases b <;> simp [bleachGo] at h
  | cons c cs ih =>
    intro b h
    cases b with
    | true =>
      simp only [bleachGo] at h
      by_cases hc : c = '>'
      · rw [if_pos hc] at h
        exact List.mem_cons_of_mem _ (ih false h)
      · rw [if_neg hc] at h
        exact List.mem_cons_of_mem _ (ih true h)
    | false =>
      simp only [bleachGo] at h
      by_cases hc : c = '<'
      · rw [if_pos hc] at h
        exact List.mem_cons_of_mem _ (ih true h)
      · rw [if_neg hc] at h
        rcases List.mem_cons.mp h with h | h
        · exact h ▸ List.mem_cons_self _ _
        · exact List.mem_cons_of_mem _ (ih false h)

/-- C8 (amended): clean with allowWildcard false removes every literal
asterisk from the result for every input; the percent-encoded wildcard is
removed only in its lowercase spelling %2a (and only in a single
left-to-right pass), so the uppercase variant %2A survives. -/
theorem clean_no_star (q : List Char) : '*' ∉ cleanDefaults q := by
  intro hmem
  have h00 : ((0 : Nat) != 0) = false := rfl
  simp only [cleanDefaults, clean, h00, Bool.false_eq_true, if_false, bleachClean] at hmem
  have h1 := mem_bleachGo '*' _ false hmem
  rcases mem_escapeColons '*' _ h1 with h2 | h2
  · exact absurd h2 (by decide)
  · have h3 := mem_removePercent2a '*' _ h2
    have h4 := List.mem_filter.mp h3
    simp at h4

theorem ec_pair (cs : List Char) :
    escapedColonsOnly ('\\' :: ':' :: cs) = escapedColonsOnly cs := by
  simp [escapedColonsOnly]

theorem ec_colon (cs : List Char) : escapedColonsOnly (':' :: cs) = false := by
  rw [escapedColonsOnly.eq_def]
  simp [(by decide : (':' : Char) ≠ '\\')]

theorem ec_other (c : Char) (cs : List Char) (h1 : c ≠ '\\') (h2 : c ≠ ':') :
    escapedColonsOnly (c :: cs) = escapedColonsOnly cs := by
  rw [escapedColonsOnly.eq_def]
  simp [h1, h2]

theorem ec_bs (cs : List Char) (h : escapedColonsOnly ('\\' :: cs) = true) :
    ∃ cs2, cs = ':' :: cs2 ∧ escapedColonsOnly cs2 = true := by
  cases cs with
  | nil => simp [escapedColonsOnly] at h
  | cons c2 cs2 =>
    by_cases hc : c2 = ':'
    · subst hc
      refine ⟨cs2, rfl, ?_⟩
      rw [ec_pair] at h
      exact h
    · simp [escapedColonsOnly, hc] at h

theorem escapeColons_escapedOnly (l : List Char) (h : '\\' ∉ l) :
    escapedColonsOnly (escapeColons l) = true := by
  induction l with
  | nil => rfl
  | cons c cs ih =>
    have hcs : '\\' ∉ cs := fun hx => h (List.mem_cons_of_mem _ hx)
    have hcbs : c ≠ '\\' := fun he => h (he ▸ List.mem_cons_self _ _)
    by_cases hc : c = ':'
    · subst hc
      have he : escapeColons (':' :: cs) = '\\' :: ':' :: escapeColons cs := by
        simp [escapeColons]
      rw [he, ec_pair]
      exact ih hcs
    · have he : escapeColons (c :: cs) = c :: escapeColons cs := by
        simp [escapeColons, hc]
      rw [he, ec_other c _ hcbs hc]
      exact ih hcs

theorem bleachGo_preserves : ∀ n : Nat, ∀ l : List Char, l.length ≤ n →
    (escapedColonsOnly l = true → escapedColonsOnly (bleachGo false l) = true) ∧
    (ecPhase l = true → escapedColonsOnly (bleachGo true l) = true) := by
  intro n
  induction n with
  | zero =>
    intro l hl
    have hnil : l = [] := List.length_eq_zero.mp (Nat.le_zero.mp hl)
    subst hnil
    exact ⟨fun _ => rfl, fun _ => rfl⟩
  | succ n ih =>
    intro l hl
    cases l with
    | nil => exact ⟨fun _ => rfl, fun _ => rfl⟩
    | cons c cs =>
      have hcs : cs.length ≤ n := by
        simp only [List.length_cons] at hl
        omega
      constructor
      · intro hec
        by_cases hlt : c = '<'
        · subst hlt
          have h1 : escapedColonsOnly cs = true := by
            rw [ec_other '<' cs (by decide) (by decide)] at hec
            exact hec
          simp only [bleachGo, if_pos rfl]
          exact (ih cs hcs).2 (by simp [ecPhase, h1])
        · by_cases hbs : c = '\\'
          · subst hbs
            obtain ⟨cs2, hcs2, hec2⟩ := ec_bs cs hec
            subst hcs2
            have hb1 : bleachGo false ('\\' :: ':' :: cs2) =
                '\\' :: ':' :: bleachGo false cs2 := by
              simp [bleachGo, (by decide : ('\\' : Char) ≠ '<'),
                (by decide : (':' : Char) ≠ '<')]
            rw [hb1, ec_pair]
            have hcs2n : cs2.length ≤ n := by
              simp only [List.length_cons] at hl
              omega
            exact (ih cs2 hcs2n).1 hec2
          · by_cases hco : c = ':'
            · subst hco
              rw [ec_colon] at hec
              exact absurd hec (by simp)
            · have h1 : escapedColonsOnly cs = true := by
                rw [ec_other c cs hbs hco] at hec
                exact hec
              simp only [bleachGo, if_neg hlt]
              rw [ec_other c _ hbs hco]
              exact (ih cs hcs).1 h1
      · intro hep
        by_cases hgt : c = '>'
        · subst hgt
          have h1 : escapedColonsOnly cs = true := by
            simp only [ecPhase, (by decide : ('>' : Char) ≠ ':'), if_false,
              Bool.or_false] at hep
            rw [ec_other '>' cs (by decide) (by decide)] at hep
            exact hep
          simp only [bleachGo, if_pos rfl]
          exact (ih cs hcs).1 h1
        · have h1 : ecPhase cs = true := by
            simp only [ecPhase, Bool.or_eq_true] at hep ⊢
            rcases hep with hep | hep
            · by_cases hbs : c = '\\'
              · subst hbs
                obtain ⟨cs2, hcs2, hec2⟩ := ec_bs cs hep
                subst hcs2
                right
                simp [hec2]
              · by_cases hco : c = ':'
                · subst hco
                  rw [ec_colon] at hep
                  exact absurd hep (by simp)
                · left
                  rw [ec_other c cs hbs hco] at hep
                  exact hep
            · by_cases hco : c = ':'
              · rw [if_pos hco] at hep
                exact Or.inl hep
              · rw [if_neg hco] at hep
                exact absurd hep (by simp)
          simp only [bleachGo, if_neg hgt]
          exact (ih cs hcs).2 h1

/-- C3 (amended): clean with default options escapes every colon, and
never doubly: in the output, backslashes and colons occur only as
adjacent backslash-colon pairs (input backslashes are removed by the
special-character class before escaping, so already-escaped text is not
double-escaped, and the same holds when re-cleaning any cleaned output,
since this theorem covers every input). clean is NOT idempotent in
general: character removal can create a new http-prefixed token that a
second application strips. -/
theorem clean_escapes_every_colon (q : List Char) :
    escapedColonsOnly (cleanDefaults q) = true := by
  have hbs : '\\' ∉ removePercent2a (removeStar (removeSpecial (stripHttp q))) := by
    intro h
    have h1 := mem_removePercent2a '\\' _ h
    have h2 := List.mem_filter.mp h1
    have h3 := List.mem_filter.mp h2.1
    simp [removedChar] at h3
  have hec := escapeColons_escapedOnly _ hbs
  have hfin := (bleachGo_preserves
    (escapeColons (removePercent2a (removeStar (removeSpecial (stripHttp q))))).length
    _ le_rfl).1 hec
  have h00 : ((0 : Nat) != 0) = false := rfl
  simpa only [cleanDefaults, clean, h00, Bool.false_eq_true, if_false, bleachClean]
    using hfin

theorem stripRight_cons_nil (a : Nat) (as : List Nat) (h : stripRight as = []) :
    stripRight (a :: as) = if pyIsSpace a then [] else [a] := by
  simp only [stripRight, h]

theorem stripRight_cons_cons (a : Nat) (as : List Nat) (b : Nat) (bs : List Nat)
    (h : stripRight as = b :: bs) :
    stripRight (a :: as) = a :: b :: bs := by
  simp only [stripRight, h]

theorem stripRight_spec : ∀ l : List Nat,
    stripRight l = l.take (stripRight l).length ∧
    (stripRight l).length ≤ l.length ∧
    ∀ j, (stripRight l).length ≤ j → j < l.length → pyIsSpace (l.getD j 0) = true := by
  intro l
  induction l with
  | nil => exact ⟨rfl, le_rfl, fun j _ h2 => absurd h2 (by simp)⟩
  | cons a as ih =>
    obtain ⟨ih1, ih2, ih3⟩ := ih
    cases hsr : stripRight as with
    | nil =>
      rw [hsr] at ih1 ih2 ih3
      simp only [List.length_nil] at ih3
      cases ha : pyIsSpace a with
      | true =>
        have he : stripRight (a :: as) = [] := by
          rw [stripRight_cons_nil a as hsr, if_pos ha]
        rw [he]
        refine ⟨rfl, by simp, ?_⟩
        intro j _ hj
        cases j with
        | zero => simpa using ha
        | succ m =>
          rw [List.getD_cons_succ]
          exact ih3 m (Nat.zero_le m) (by simpa using hj)
      | false =>
        have he : stripRight (a :: as) = [a] := by
          rw [stripRight_cons_nil a as hsr, if_neg (by simp [ha])]
        rw [he]
        refine ⟨by simp, by simp, ?_⟩
        intro j hj1 hj2
        cases j with
        | zero => simp at hj1
        | succ m =>
          rw [List.getD_cons_succ]
          exact ih3 m (Nat.zero_le m) (by simpa using hj2)
    | cons b bs =>
      rw [hsr] at ih1 ih2 ih3
      have he : stripRight (a :: as) = a :: b :: bs := stripRight_cons_cons a as b bs hsr
      rw [he]
      refine ⟨?_, by simpa using ih2, ?_⟩
      · simp only [List.length_cons, List.take_succ_cons]
        rw [show bs.length + 1 = (b :: bs).length from rfl, ← ih1]
      · intro j hj1 hj2
        cases j with
        | zero => simp at hj1
        | succ m =>
          rw [List.getD_cons_succ]
          exact ih3 m (by simpa using hj1) (by simpa using hj2)

theorem stripLeft_head (l : List Nat) (a : Nat) (as : List Nat)
    (h : stripLeft l = a :: as) : pyIsSpace a = false := by
  induction l with
  | nil => simp [stripLeft] at h
  | cons c cs ih =>
    cases hpc : pyIsSpace c with
    | true =>
      rw [show stripLeft (c :: cs) = stripLeft cs from by simp [stripLeft, hpc]] at h
      exact ih h
    | false =>
      rw [show stripLeft (c :: cs) = c :: cs from by simp [stripLeft, hpc]] at h
      injection h with h1 _
      subst h1
      exact hpc

theorem take_eq_cons {α : Type} (l : List α) (k : Nat) (a : α) (as : List α)
    (h : l.take k = a :: as) : ∃ l2, l = a :: l2 := by
  cases l with
  | nil => simp at h
  | cons b bs =>
    cases k with
    | zero => simp at h
    | succ k =>
      simp only [List.take_succ_cons] at h
      injection h with h1 _
      exact ⟨bs, by rw [h1]⟩

theorem pyStrip_head (s : List Nat) (a : Nat) (as : List Nat)
    (h : pyStrip s = a :: as) : pyIsSpace a = false := by
  unfold pyStrip at h
  rw [(stripRight_spec (stripLeft s)).1] at h
  obtain ⟨l2, hl2⟩ := take_eq_cons _ _ _ _ h
  exact stripLeft_head s a l2 hl2

theorem getD_take {α : Type} (l : List α) (n j : Nat) (d : α) (h : j < n) :
    (l.take n).getD j d = l.getD j d := by
  induction l generalizing n j with
  | nil => simp
  | cons a as ih =>
    cases n with
    | zero => omega
    | succ n =>
      cases j with
      | zero => simp
      | succ j =>
        simp only [List.take_succ_cons, List.getD_cons_succ]
        exact ih n j (by omega)

theorem lastSpaceIdx_isSome (l : List Nat) (h : 32 ∈ l) :
    ∃ i, lastSpaceIdx l = some i := by
  induction l with
  | nil => simp at h
  | cons a as ih =>
    cases hls : lastSpaceIdx as with
    | some j => exact ⟨j + 1, by simp [lastSpaceIdx, hls]⟩
    | none =>
      rcases List.mem_cons.mp h with h1 | h1
      · exact ⟨0, by simp [lastSpaceIdx, hls, ← h1]⟩
      · obtain ⟨j, hj⟩ := ih h1
        rw [hj] at hls
        exact Option.noConfusion hls

theorem lastSpaceIdx_spec (l : List Nat) :
    ∀ i, lastSpaceIdx l = some i → i < l.length ∧ l.getD i 0 = 32 := by
  induction l with
  | nil => intro i h; simp [lastSpaceIdx] at h
  | cons a as ih =>
    intro i h
    cases hls : lastSpaceIdx as with
    | some j =>
      rw [show lastSpaceIdx (a :: as) = some (j + 1) from by simp [lastSpaceIdx, hls]] at h
      injection h with h1
      subst h1
      obtain ⟨hj1, hj2⟩ := ih j hls
      exact ⟨by simpa using hj1, by simpa using hj2⟩
    | none =>
      cases ha : a == 32 with
      | true =>
        rw [show lastSpaceIdx (a :: as) = some 0 from by simp [lastSpaceIdx, hls, ha]] at h
        injection h with h1
        subst h1
        refine ⟨by simp, ?_⟩
        have ha2 : a = 32 := by simpa using ha
        simp [ha2]
      | false =>
        rw [show lastSpaceIdx (a :: as) = none from by simp [lastSpaceIdx, hls, ha]] at h
        exact Option.noConfusion h

theorem truncate_word_boundary_core (t c : List Nat)
    (ht : ∀ a as, t = a :: as → pyIsSpace a = false)
    (hc : c = t.take c.length) (i : Nat) (hil : i < c.length)
    (hig : c.getD i 0 = 32) :
    wordBoundaryOk t (pyStrip (c.take i)) = true := by
  have hcl : c.length ≤ t.length := by
    conv_lhs => rw [hc]
    simp only [List.length_take]
    exact Nat.min_le_right _ _
  have hct : c.take i = t.take i := by
    conv_lhs => rw [hc]
    rw [List.take_take]
    rw [Nat.min_eq_left (Nat.le_of_lt hil)]
  have hit : i ≤ t.length := Nat.le_trans (Nat.le_of_lt hil) hcl
  have hti_len : (t.take i).length = i := by
    simp only [List.length_take]
    exact Nat.min_eq_left hit
  rw [hct]
  cases hti : t.take i with
  | nil =>
    rw [show pyStrip [] = [] from rfl]
    simp [wordBoundaryOk]
  | cons a l2 =>
    have ha : pyIsSpace a = false := by
      obtain ⟨t2, ht2⟩ := take_eq_cons t i a l2 hti
      exact ht a t2 ht2
    have hsl : stripLeft (a :: l2) = a :: l2 := by simp [stripLeft, ha]
    have hr : pyStrip (a :: l2) = stripRight (a :: l2) := by
      unfold pyStrip
      rw [hsl]
    rw [hr]
    obtain ⟨hr1, hr2, hr3⟩ := stripRight_spec (a :: l2)
    cases hre : stripRight (a :: l2) with
    | nil => simp [wordBoundaryOk]
    | cons r0 rs =>
      rw [hre] at hr1 hr2 hr3
      have hlen2 : (a :: l2).length = i := by rw [← hti]; exact hti_len
      have hrlen : (r0 :: rs).length ≤ i := hlen2 ▸ hr2
      have hpre : t.take (r0 :: rs).length = r0 :: rs := by
        conv_rhs => rw [hr1, ← hti]
        rw [List.take_take, Nat.min_eq_left hrlen]
      have hsp2 : pyIsSpace (t.getD (r0 :: rs).length 0) = true := by
        rcases Nat.lt_or_ge (r0 :: rs).length i with hlt | hge
        · have h1 := hr3 (r0 :: rs).length le_rfl (by rw [hlen2]; exact hlt)
          rw [← hti, getD_take t i (r0 :: rs).length 0 hlt] at h1
          exact h1
        · have heq : (r0 :: rs).length = i := Nat.le_antisymm hrlen hge
          rw [heq]
          have h1 : c.getD i 0 = 32 := hig
          rw [hc, getD_take t c.length i 0 hil] at h1
          rw [h1]
          rfl
      have hpre2 : List.take (rs.length + 1) t = r0 :: rs := hpre
      have hsp3 : pyIsSpace ((t[rs.length + 1]?).getD 0) = true := by
        simpa [List.getD_eq_getElem?_getD] using hsp2
      simp [wordBoundaryOk, hpre2, hsp3]

/-- C5 (amended): when truncation to maxLen with preserveWords actually
shortened the trimmed string AND the (surrogate-trimmed) cut contains an
ASCII space, the returned string ends at a word boundary of the trimmed
input: no partial trailing word remains. When the cut contains no space,
query.rsplit returns the whole cut string, and the partial trailing word
is kept (the counterexample above). -/
theorem truncate_word_boundary (s : List Nat) (n : Nat)
    (hshort : (dropTrailingHighSurrogate ((pyStrip s).take n)).length < (pyStrip s).length)
    (hsp : 32 ∈ dropTrailingHighSurrogate ((pyStrip s).take n)) :
    wordBoundaryOk (pyStrip s) (truncate_utf8 s n true) = true := by
  have hd : decide ((pyStrip s).length > (dropTrailingHighSurrogate ((pyStrip s).take n)).length)
      = true := decide_eq_true hshort
  obtain ⟨i, hi⟩ := lastSpaceIdx_isSome _ hsp
  obtain ⟨hil, hig⟩ := lastSpaceIdx_spec _ i hi
  have htr : truncate_utf8 s n true =
      pyStrip ((dropTrailingHighSurrogate ((pyStrip s).take n)).take i) := by
    simp only [truncate_utf8, hd, Bool.true_and, if_true, rsplitHead, hi]
  rw [htr]
  have hck : ∃ k, dropTrailingHighSurrogate ((pyStrip s).take n) = (pyStrip s).take k := by
    unfold dropTrailingHighSurrogate
    cases hl : ((pyStrip s).take n).getLast? with
    | none => exact ⟨n, rfl⟩
    | some x =>
      cases hx : isHighSurrogate x with
      | true =>
        refine ⟨min (((pyStrip s).take n).length - 1) n, ?_⟩
        simp only [hx, if_true]
        rw [List.dropLast_eq_take, List.take_take]
      | false => exact ⟨n, by simp [hx]⟩
  have hc : dropTrailingHighSurrogate ((pyStrip s).take n) =
      (pyStrip s).take (dropTrailingHighSurrogate ((pyStrip s).take n)).length := by
    obtain ⟨k, hk⟩ := hck
    conv_lhs => rw [hk]
    conv_rhs => rw [hk]
    rw [List.take_eq_take]
    simp only [List.length_take]
    rw [Nat.min_assoc, Nat.min_self]
  exact truncate_word_boundary_core (pyStrip s) _
    (fun a as h => pyStrip_head s a as h) hc i hil hig

/-- Witness for the amended C5: cutting "hello world" to 8 keeps exactly
the complete word "hello". -/
theorem truncate_word_boundary_witness :
    ((dropTrailingHighSurrogate ((pyStrip [104, 101, 108, 108, 111, 32, 119, 111, 114, 108, 100]).take 8)).length <
      (pyStrip [104, 101, 108, 108, 111, 32, 119, 111, 114, 108, 100]).length ∧
      32 ∈ dropTrailingHighSurrogate ((pyStrip [104, 101, 108, 108, 111, 32, 119, 111, 114, 108, 100]).take 8)) ∧
    wordBoundaryOk (pyStrip [104, 101, 108, 108, 111, 32, 119, 111, 114, 108, 100])
      (truncate_utf8 [104, 101, 108, 108, 111, 32, 119, 111, 114, 108, 100] 8 true) = true :=
  ⟨⟨by decide, by decide⟩,
    truncate_word_boundary [104, 101, 108, 108, 111, 32, 119, 111, 114, 108, 100] 8
      (by decide) (by decide)⟩

end Aiosolr
